import Mathlib

/-!
Verification of the `uefi-bootloader` repository against its design document.

The Rust sources are shallowly embedded: pure functions become Lean functions,
firmware-stateful code becomes explicit state passing, machine integers become
`Nat` (the quantities involved — physical addresses, page counts, sizes — never
approach 2^64 on the inputs considered, and the source performs no
intentionally wrapping arithmetic).

The embedded pieces are:
 * `convert` and the `MemoryDescriptorConsolidator` iterator from
   `src/uefi-bootloader/src/main.rs` (`consolidateGo` is the body of its
   `next`, i.e. the `while let ... next_if` merge loop; `consolidate` runs the
   iterator to completion over a descriptor list);
 * `get_rsdp_address`, `get_frame_buffer`, `set_up_mappings`,
   `allocate_boot_info` (its `Layout` computation) and the boot-info
   frame-buffer field assembly from the same file;
 * `context_switch` from `src/uefi-bootloader/src/arch/x86_64/mod.rs`,
   as a transformer on the x86_64 register state it touches.

The repository's `memory` module (the `Memory`, `Page`, `Frame`,
`PhysicalAddress`, `VirtualAddress` types) is not among the provided sources;
it is modelled from the spec where noted.
-/

namespace UefiBootloader

/-- UEFI memory type tags, as numbered by the UEFI specification and exposed by
the `uefi` crate's `MemoryType` associated constants. -/
def LOADER_CODE : Nat := 1

def LOADER_DATA : Nat := 2

def BOOT_SERVICES_CODE : Nat := 3

def BOOT_SERVICES_DATA : Nat := 4

def CONVENTIONAL : Nat := 7

def ACPI_RECLAIM : Nat := 9

/-- A firmware memory descriptor, keeping the fields `convert` reads:
`ty` (the `MemoryType` tag), `phys_start` and `page_count`. -/
structure MemoryDescriptor where
  ty : Nat
  phys_start : Nat
  page_count : Nat
deriving DecidableEq, Repr

/-- `MemoryRegionKind` from the `uefi_bootloader_api` crate, per the spec's
data model (§3): Usable, UnknownUefi(tag), BootloaderReserved, KernelReserved. -/
inductive MemoryRegionKind where
  | usable
  | unknownUefi (tag : Nat)
  | bootloaderReserved
  | kernelReserved
deriving DecidableEq, Repr

/-- `MemoryRegion` from the `uefi_bootloader_api` crate. -/
structure MemoryRegion where
  start : Nat
  len : Nat
  kind : MemoryRegionKind
deriving DecidableEq, Repr

/-- The `convert` function nested in `main`
(src/uefi-bootloader/src/main.rs lines 97-110). -/
def convert (memory_descriptor : MemoryDescriptor) : MemoryRegion :=
  { start := memory_descriptor.phys_start
    len := memory_descriptor.page_count * 4096
    kind :=
      if memory_descriptor.ty = CONVENTIONAL ∨ memory_descriptor.ty = LOADER_CODE ∨
          memory_descriptor.ty = LOADER_DATA ∨ memory_descriptor.ty = BOOT_SERVICES_CODE ∨
          memory_descriptor.ty = BOOT_SERVICES_DATA then
        MemoryRegionKind.usable
      else
        MemoryRegionKind.unknownUefi memory_descriptor.ty }

/-- The `while let Some(next) = self.inner.next_if(...)` merge loop inside
`MemoryDescriptorConsolidator::next` (src/uefi-bootloader/src/main.rs lines
131-137): starting from the already-converted `area`, keep consuming the next
descriptor while it converts to the same kind and starts exactly at
`area.start + area.len`, adding its length to `area.len`.  Returns the final
`area` together with the descriptors left in the iterator. -/
def consolidateGo (area : MemoryRegion) :
    List MemoryDescriptor → MemoryRegion × List MemoryDescriptor
  | [] => (area, [])
  | d :: rest =>
    if area.kind = (convert d).kind ∧ area.start + area.len = (convert d).start then
      consolidateGo { area with len := area.len + (convert d).len } rest
    else
      (area, d :: rest)

/-- Running the `MemoryDescriptorConsolidator` iterator to completion over a
firmware descriptor list: each `next` call converts one descriptor and merges
the following contiguous same-kind descriptors into it (`consolidateGo`). -/
def consolidate : List MemoryDescriptor → List MemoryRegion
  | [] => []
  | d :: rest =>
    (consolidateGo (convert d) rest).1 :: consolidate (consolidateGo (convert d) rest).2
termination_by l => l.length
decreasing_by
  have h : ∀ (a : MemoryRegion) (l : List MemoryDescriptor),
      (consolidateGo a l).2.length ≤ l.length := by
    intro a l
    induction l generalizing a with
    | nil => simp [consolidateGo]
    | cons d tl ih =>
      rw [consolidateGo]
      split
      · exact Nat.le_trans (ih _) (Nat.le_succ _)
      · simp
  have := h (convert d) rest
  simp only [List.length_cons]
  omega

/-- The consolidation algorithm as worded by the spec (§4.7): iterate the
descriptors keeping a current region; while the following descriptor converts
to the same kind and its start equals `current.start + current.len`, merge it
in by extending `len`; otherwise emit and advance.  Written by structural
recursion with an explicit accumulator, to be proved equal to the embedded
iterator `consolidate`. -/
def specConsolidateLoop (current : MemoryRegion) :
    List MemoryDescriptor → List MemoryRegion
  | [] => [current]
  | d :: rest =>
    if current.kind = (convert d).kind ∧ current.start + current.len = (convert d).start then
      specConsolidateLoop { current with len := current.len + (convert d).len } rest
    else
      current :: specConsolidateLoop (convert d) rest

/-- Top level of the spec-worded consolidation. -/
def specConsolidate : List MemoryDescriptor → List MemoryRegion
  | [] => []
  | d :: rest => specConsolidateLoop (convert d) rest

/-- Re-reading an emitted `MemoryRegion` as a firmware descriptor of the same
start, length and kind (the spec's idempotence claim, §8): Usable re-reads as
CONVENTIONAL, UnknownUefi(tag) as `tag`; the two reserved kinds (never emitted
by the consolidator) are given tags outside the UEFI range. -/
def kindToTag : MemoryRegionKind → Nat
  | MemoryRegionKind.usable => CONVENTIONAL
  | MemoryRegionKind.unknownUefi tag => tag
  | MemoryRegionKind.bootloaderReserved => 0x80000000
  | MemoryRegionKind.kernelReserved => 0x80000001

/-- A `MemoryRegion` viewed as a firmware descriptor of the same start,
length and kind. -/
def rereadDescriptor (r : MemoryRegion) : MemoryDescriptor :=
  { ty := kindToTag r.kind, phys_start := r.start, page_count := r.len / 4096 }

/-- A region round-trips through `rereadDescriptor` and `convert`. -/
def CanonicalRegion (r : MemoryRegion) : Prop :=
  convert (rereadDescriptor r) = r

/-- Kinds as `convert` can produce them: Usable, or UnknownUefi with a tag
outside the Usable set; the reserved kinds never appear. -/
def KindCanonical : MemoryRegionKind → Prop
  | MemoryRegionKind.usable => True
  | MemoryRegionKind.unknownUefi tag =>
      ¬(tag = CONVENTIONAL ∨ tag = LOADER_CODE ∨ tag = LOADER_DATA ∨
        tag = BOOT_SERVICES_CODE ∨ tag = BOOT_SERVICES_DATA)
  | MemoryRegionKind.bootloaderReserved => False
  | MemoryRegionKind.kernelReserved => False

/-- Byte length of a firmware descriptor. -/
def descLen (d : MemoryDescriptor) : Nat := d.page_count * 4096

/-- First byte past a firmware descriptor. -/
def descEnd (d : MemoryDescriptor) : Nat := d.phys_start + descLen d

/-- First byte past a memory region. -/
def regionEnd (r : MemoryRegion) : Nat := r.start + r.len

/-- A descriptor list is address-contiguous starting at `e`: each descriptor
begins exactly where the previous one ends. -/
def ContigFrom : Nat → List MemoryDescriptor → Prop
  | _, [] => True
  | e, d :: rest => d.phys_start = e ∧ ContigFrom (descEnd d) rest

/-- A region list is address-contiguous starting at `e`. -/
def RegionsContigFrom : Nat → List MemoryRegion → Prop
  | _, [] => True
  | e, r :: rest => r.start = e ∧ RegionsContigFrom (regionEnd r) rest

/-- Adjacent regions that the consolidator would not have merged: not both of
the same kind and exactly abutting. -/
def NotMergeable (r1 r2 : MemoryRegion) : Prop :=
  ¬(r1.kind = r2.kind ∧ r1.start + r1.len = r2.start)

/-- Sorting regions by their start address. -/
def sortByStart (l : List MemoryRegion) : List MemoryRegion :=
  l.insertionSort fun r1 r2 => r1.start ≤ r2.start

/-! ## Firmware configuration table and RSDP discovery -/

/-- A firmware configuration-table entry, keeping the fields
`get_rsdp_address` reads; the GUID is its 128-bit value. -/
structure ConfigTableEntry where
  guid : Nat
  address : Nat
deriving DecidableEq, Repr

/-- The ACPI 2.0 RSDP GUID (`ACPI2_GUID` in the `uefi` crate),
8868e871-e4f1-11d3-bc22-0080c73c8881. -/
def ACPI2_GUID : Nat := 0x8868e871e4f111d3bc220080c73c8881

/-- The ACPI 1.0 RSDP GUID (`ACPI_GUID` in the `uefi` crate),
eb9d2d30-2d88-11d3-9a16-0090273fc14d. -/
def ACPI_GUID : Nat := 0xeb9d2d302d8811d39a160090273fc14d

/-- Rust's `Iterator::find` on a mutable iterator over a list: consumes
elements up to and including the first match; returns the match (if any)
together with the elements remaining in the iterator afterwards.  When nothing
matches, the whole iterator has been consumed. -/
def iterFind (p : ConfigTableEntry → Bool) :
    List ConfigTableEntry → Option ConfigTableEntry × List ConfigTableEntry
  | [] => (none, [])
  | e :: rest => if p e then (some e, rest) else iterFind p rest

/-- `get_rsdp_address` (src/uefi-bootloader/src/main.rs lines 242-249): one
iterator over the configuration table; `find` an ACPI 2.0 entry, and if that
returned `None`, `find` an ACPI 1.0 entry **in the same, already-advanced
iterator** (this is the embedded behaviour of
`acpi2_rsdp.or_else(|| config_entries.find(...))`). -/
def get_rsdp_address (config_entries : List ConfigTableEntry) : Option Nat :=
  let acpi2_rsdp := iterFind (fun entry => entry.guid == ACPI2_GUID) config_entries
  let rsdp :=
    match acpi2_rsdp.1 with
    | some e => some e
    | none => (iterFind (fun entry => entry.guid == ACPI_GUID) acpi2_rsdp.2).1
  rsdp.map fun entry => entry.address

/-! ## Graphics output discovery -/

/-- The `uefi` crate's `gop::PixelFormat`. -/
inductive GopPixelFormat where
  | rgb
  | bgr
  | bitmask
  | bltOnly
deriving DecidableEq, Repr

/-- The `uefi_bootloader_api` crate's `PixelFormat` (spec §3: only Rgb and
Bgr survive discovery). -/
inductive PixelFormat where
  | rgb
  | bgr
deriving DecidableEq, Repr

/-- `FrameBufferInfo` from the `uefi_bootloader_api` crate, as populated by
`get_frame_buffer`. -/
structure FrameBufferInfo where
  size : Nat
  width : Nat
  height : Nat
  pixel_format : PixelFormat
  bytes_per_pixel : Nat
  stride : Nat
deriving DecidableEq, Repr

/-- `FrameBuffer` from the `uefi_bootloader_api` crate: physical start of the
framebuffer plus its description. -/
structure FrameBuffer where
  start : Nat
  info : FrameBufferInfo
deriving DecidableEq, Repr

/-- The data the graphics-output protocol reports: current mode info
(resolution, pixel format, stride) and the framebuffer (size and base
pointer). -/
structure GraphicsOutput where
  width : Nat
  height : Nat
  pixel_format : GopPixelFormat
  stride : Nat
  frame_buffer_size : Nat
  frame_buffer_ptr : Nat
deriving DecidableEq, Repr

/-- `get_frame_buffer` (src/uefi-bootloader/src/main.rs lines 199-230).  The
two fallible protocol lookups collapse into the `Option` argument (`ok()?`
returns `None` when graphics output is absent).  A Bitmask or BltOnly pixel
format panics; the panic is embedded as `Except.error` carrying the panic
message. -/
def get_frame_buffer (gop : Option GraphicsOutput) : Except String (Option FrameBuffer) :=
  match gop with
  | none => Except.ok none
  | some gop => do
    let pixel_format ←
      match gop.pixel_format with
      | GopPixelFormat.rgb => Except.ok PixelFormat.rgb
      | GopPixelFormat.bgr => Except.ok PixelFormat.bgr
      | GopPixelFormat.bitmask =>
          Except.error "Bitmask and BltOnly framebuffers are not supported"
      | GopPixelFormat.bltOnly =>
          Except.error "Bitmask and BltOnly framebuffers are not supported"
    Except.ok (some
      { start := gop.frame_buffer_ptr
        info :=
          { size := gop.frame_buffer_size
            width := gop.width
            height := gop.height
            pixel_format := pixel_format
            bytes_per_pixel := 4
            stride := gop.stride } })

/-! ## Memory model (frame allocator, page mapper) -/

/-- PTE flag bit for PRESENT (`PteFlags::PRESENT`). -/
def PRESENT : Nat := 1

/-- PTE flag bit for WRITABLE (`PteFlags::WRITABLE`). -/
def WRITABLE : Nat := 2

/-- Rounding an address up to the next 4 KiB boundary. -/
def pageAlignUp (a : Nat) : Nat := (a + 4095) / 4096 * 4096

/-- `Page::containing_address` / `Frame::containing_address`: 4 KiB units
round down (spec §3).  Pages and frames are represented by their index. -/
def containing_address (a : Nat) : Nat := a / 4096

/-- `Page::start_address` / `Frame::start_address` of a 4 KiB unit index. -/
def unit_start_address (p : Nat) : Nat := p * 4096

/-- Modelled from the spec: the `Memory` type of the repository's `memory`
module, which is not among the provided sources (§4.2).  `next_free` backs
`get_free_address` (an opaque bump pointer over free kernel virtual addresses;
consecutive calls return disjoint aligned ranges); `next_frame` backs
`allocate_frame` (delegation to the firmware page allocator, each call a fresh
frame); `page_mappings` records the `map(page, frame, flags)` calls installed
into the new page table, in order. -/
structure Memory where
  next_free : Nat
  next_frame : Nat
  page_mappings : List (Nat × Nat × Nat)
deriving DecidableEq, Repr

/-- Modelled from the spec: `Memory::get_free_address(size)` returns a free
aligned virtual region of at least `size` bytes; the bump pointer advances
past it (§4.2). -/
def Memory.get_free_address (m : Memory) (size : Nat) : Nat × Memory :=
  let addr := pageAlignUp m.next_free
  (addr, { m with next_free := addr + pageAlignUp size })

/-- Modelled from the spec: `Memory::allocate_frame` returns a fresh physical
frame from the firmware allocator (§4.2).  The model hands out consecutive
frame indices; only freshness/distinctness matters to the claims. -/
def Memory.allocate_frame (m : Memory) : Nat × Memory :=
  (m.next_frame, { m with next_frame := m.next_frame + 1 })

/-- Modelled from the spec: `Memory::map(page, frame, flags)` installs a
4 KiB mapping (§4.2). -/
def Memory.map (m : Memory) (page frame flags : Nat) : Memory :=
  { m with page_mappings := m.page_mappings ++ [(page, frame, flags)] }

/-- Modelled from the spec: `set_up_arch_specific_mappings` lives in
`src/uefi-bootloader/src/arch/x86_64/memory.rs`, which is not among the
provided sources; the spec's Mapping Builder (§4.5) consists of the stack,
trampoline and framebuffer steps only, so the hook is modelled as adding
nothing. -/
def set_up_arch_specific_mappings (m : Memory) : Memory := m

/-- `STACK_SIZE` (src/uefi-bootloader/src/main.rs line 255). -/
def STACK_SIZE : Nat := 18 * 4096

/-- The stack-mapping loop of `set_up_mappings` (lines 266-270): for each page
in turn, allocate a fresh frame and map the page to it PRESENT | WRITABLE. -/
def mapFreshStackPages (pages : List Nat) (m : Memory) : Memory :=
  match pages with
  | [] => m
  | p :: rest =>
    let fm := m.allocate_frame
    mapFreshStackPages rest (fm.2.map p fm.1 (PRESENT ||| WRITABLE))

/-- The framebuffer-mapping loop of `set_up_mappings` (lines 291-295): map
each (page, frame) pair PRESENT | WRITABLE; no frames are allocated. -/
def mapFrameBufferPages (pairs : List (Nat × Nat)) (m : Memory) : Memory :=
  match pairs with
  | [] => m
  | pf :: rest => mapFrameBufferPages rest (m.map pf.1 pf.2 (PRESENT ||| WRITABLE))

/-- Rust's `a..=b` range over page or frame indices, as a list. -/
def rangeInclusive (a b : Nat) : List Nat :=
  (List.range (b + 1 - a)).map fun i => a + i

/-- The mapping entries produced by `mapFreshStackPages` on a page list,
starting from frame index `nf`: consecutive fresh frames, PRESENT | WRITABLE. -/
def freshEntries (nf : Nat) : List Nat → List (Nat × Nat × Nat)
  | [] => []
  | p :: rest => (p, nf, PRESENT ||| WRITABLE) :: freshEntries (nf + 1) rest

/-- The `Mappings` record (src/uefi-bootloader/src/main.rs lines 311-314). -/
structure Mappings where
  stack_top : Nat
  frame_buffer : Option Nat
deriving DecidableEq, Repr

/-- `set_up_mappings` (src/uefi-bootloader/src/main.rs lines 251-309).
`context_switch_address` stands for `context_switch as usize`, the address of
the trampoline code.  Reserves `STACK_SIZE` bytes of virtual space, maps every
page of that region except the first (the guard) to a fresh frame, identity
maps the trampoline page, maps the framebuffer (when present) at a fresh
virtual range, and reports `stack_top` one past the last stack page. -/
def set_up_mappings (m : Memory) (frame_buffer : Option FrameBuffer)
    (context_switch_address : Nat) : Mappings × Memory :=
  let gfa := m.get_free_address STACK_SIZE
  let stack_start_address := gfa.1
  let stack_start := containing_address stack_start_address
  let stack_end := containing_address (stack_start_address + STACK_SIZE - 1)
  let m := mapFreshStackPages (rangeInclusive (stack_start + 1) stack_end) gfa.2
  let m := m.map (containing_address context_switch_address)
    (containing_address context_switch_address) PRESENT
  let fbm :=
    match frame_buffer with
    | none => (none, m)
    | some fb =>
      let gfa2 := m.get_free_address fb.info.size
      let start_virtual := gfa2.1
      let start_page := containing_address start_virtual
      let end_page := containing_address (start_virtual + fb.info.size - 1)
      let start_frame := containing_address fb.start
      let end_frame := containing_address (fb.start + fb.info.size - 1)
      let m := mapFrameBufferPages
        ((rangeInclusive start_page end_page).zip (rangeInclusive start_frame end_frame)) gfa2.2
      (some start_virtual, m)
  let m := set_up_arch_specific_mappings fbm.2
  ({ stack_top := unit_start_address (stack_end + 1), frame_buffer := fbm.1 }, m)

/-- Assembly of the `frame_buffer` field of `BootInformation` in `main`
(src/uefi-bootloader/src/main.rs lines 159-162):
`mappings.frame_buffer.map(|start| FrameBuffer { start, info: frame_buffer.unwrap().info })`.
The `unwrap` of the firmware framebuffer is evaluated only inside the `map`
closure; unwrapping `None` panics, embedded as `Except.error`. -/
def assembleFrameBufferField (frame_buffer : Option FrameBuffer) (mappings : Mappings) :
    Except String (Option FrameBuffer) :=
  match mappings.frame_buffer with
  | none => Except.ok none
  | some start =>
    match frame_buffer with
    | some fb => Except.ok (some { start := start, info := fb.info })
    | none => Except.error "called Option unwrap on a None value"

/-! ## Boot-info layout -/

/-- Rust's `core::alloc::Layout`: a size and an alignment. -/
structure Layout where
  size : Nat
  align : Nat
deriving DecidableEq, Repr

/-- Rounding `n` up to a multiple of `a`. -/
def roundUpTo (n a : Nat) : Nat := (n + a - 1) / a * a

/-- Rust's `Layout::extend`: pad to the alignment of `next`, append it, and
take the larger alignment; returns the combined layout and the byte offset at
which `next` was placed. -/
def Layout.extend (l : Layout) (next : Layout) : Layout × Nat :=
  let offset := roundUpTo l.size next.align
  ({ size := offset + next.size, align := max l.align next.align }, offset)

/-- Rust's `Layout::array::<T>(n)`: `n` elements of the given element
layout (a Rust type's size is a multiple of its alignment, so no padding is
inserted between elements). -/
def Layout.arrayOf (elem : Layout) (n : Nat) : Layout :=
  { size := elem.size * n, align := elem.align }

/-- Sizes and alignments of the `uefi_bootloader_api` types
(`BootInformation`, `MemoryRegion`, `Module`, `ElfSection`); the crate is not
among the provided sources, so the layout computation is parameterised over
them. -/
structure ApiLayouts where
  bootInfo : Layout
  memoryRegion : Layout
  moduleEntry : Layout
  elfSection : Layout
deriving DecidableEq, Repr

/-- The `Layout` computation of `allocate_boot_info`
(src/uefi-bootloader/src/main.rs lines 322-331): extend the
`BootInformation` header layout with the memory-regions array, then the
modules array, then the ELF-sections array, recording each offset.  Returns
(combined layout, memory_regions_offset, modules_offset, elf_sections_offset). -/
def allocate_boot_info_layout (L : ApiLayouts)
    (memory_regions_count modules_len elf_sections_len : Nat) :
    Layout × Nat × Nat × Nat :=
  let p1 := L.bootInfo.extend (L.memoryRegion.arrayOf memory_regions_count)
  let p2 := p1.1.extend (L.moduleEntry.arrayOf modules_len)
  let p3 := p2.1.extend (L.elfSection.arrayOf elf_sections_len)
  (p3.1, p1.2, p2.2, p3.2)

/-- A sample instantiation of the api-crate layouts, used to witness the
layout theorem on concrete numbers. -/
def sampleApiLayouts : ApiLayouts :=
  { bootInfo := { size := 200, align := 8 }
    memoryRegion := { size := 24, align := 8 }
    moduleEntry := { size := 72, align := 8 }
    elfSection := { size := 32, align := 8 } }

/-- The memory-regions capacity computed in `main`
(src/uefi-bootloader/src/main.rs lines 67-68 and 82):
`memory_map_size = map_size + 8 * size_of::<MemoryDescriptor>()`, then
`memory_map_len = memory_map_size / size_of::<MemoryDescriptor>()`. -/
def memory_map_len (map_size descriptor_size : Nat) : Nat :=
  (map_size + 8 * descriptor_size) / descriptor_size

/-! ## Context switch -/

/-- `Context` (src/uefi-bootloader/src/main.rs lines 406-412); the
`page_table` frame is its index, addresses are numeric. -/
structure Context where
  page_table : Nat
  stack_top : Nat
  entry_point : Nat
  boot_info : Nat
deriving DecidableEq, Repr

/-- The x86_64 register state the trampoline touches, plus the interrupt
flag. -/
structure MachineState where
  cr3 : Nat
  rsp : Nat
  rdi : Nat
  rip : Nat
  interrupts_enabled : Bool
deriving DecidableEq, Repr

/-- `context_switch` (src/uefi-bootloader/src/arch/x86_64/mod.rs lines 6-17):
the inline assembly `mov cr3, _; mov rsp, _; jmp _` with `boot_info` pinned to
`rdi` as an input operand.  Embedded as its effect on the register state: cr3
receives `page_table.start_address()`, rsp receives `stack_top`, rdi the
boot-info pointer, and the trailing jump sets rip to `entry_point` (the
routine never returns — `options(noreturn)`).  No instruction in the sequence
touches the interrupt flag. -/
def context_switch (context : Context) (s : MachineState) : MachineState :=
  { s with
    cr3 := unit_start_address context.page_table
    rsp := context.stack_top
    rdi := context.boot_info
    rip := context.entry_point }

/-! ## Helper lemmas: the consolidator iterator versus its loop form -/

theorem consolidate_nil : consolidate [] = [] := by
  rw [consolidate]

theorem consolidate_cons (d : MemoryDescriptor) (rest : List MemoryDescriptor) :
    consolidate (d :: rest) =
      (consolidateGo (convert d) rest).1 :: consolidate (consolidateGo (convert d) rest).2 := by
  rw [consolidate]

theorem specConsolidateLoop_eq_go (l : List MemoryDescriptor) :
    ∀ a : MemoryRegion,
      specConsolidateLoop a l = (consolidateGo a l).1 :: consolidate (consolidateGo a l).2 := by
  induction l with
  | nil =>
    intro a
    simp [specConsolidateLoop, consolidateGo, consolidate_nil]
  | cons d rest ih =>
    intro a
    by_cases h : a.kind = (convert d).kind ∧ a.start + a.len = (convert d).start
    · simp only [specConsolidateLoop, consolidateGo, if_pos h]
      exact ih _
    · simp only [specConsolidateLoop, consolidateGo, if_neg h]
      rw [consolidate_cons, ih]

theorem consolidate_eq_spec (l : List MemoryDescriptor) :
    consolidate l = specConsolidate l := by
  cases l with
  | nil => rw [consolidate_nil]; rfl
  | cons d rest =>
    rw [consolidate_cons]
    exact (specConsolidateLoop_eq_go rest (convert d)).symm

/-! ## C1 -/

/-- C1: the memory-map consolidator emits regions by repeatedly taking the
next descriptor and, while the following descriptor converts to a
`MemoryRegion` of the same kind whose start equals `current.start +
current.len`, merging it in by adding its `len` (this is `specConsolidate`,
the spec's wording of the algorithm, proved equal to the embedded iterator);
in particular two adjacent CONVENTIONAL descriptors at 0x10_0000 (0x10 pages)
and 0x11_0000 (0x20 pages) yield the single region
start 0x10_0000, len 0x3_0000, kind Usable. -/
theorem c1_consolidator_algorithm :
    (∀ l : List MemoryDescriptor, consolidate l = specConsolidate l) ∧
    consolidate
        [{ ty := CONVENTIONAL, phys_start := 0x100000, page_count := 0x10 },
         { ty := CONVENTIONAL, phys_start := 0x110000, page_count := 0x20 }] =
      [{ start := 0x100000, len := 0x30000, kind := MemoryRegionKind.usable }] := by
  refine ⟨consolidate_eq_spec, ?_⟩
  rw [consolidate_eq_spec]
  decide

/-! ## C2 -/

/-- C2: `convert` sets `start = phys_start`, `len = page_count * 4096`, and
kind Usable exactly for the tags CONVENTIONAL, LOADER_CODE, LOADER_DATA,
BOOT_SERVICES_CODE, BOOT_SERVICES_DATA and UnknownUefi(tag) for every other
tag; a LOADER_CODE descriptor followed by a contiguous ACPI_RECLAIM descriptor
yields two regions of kinds Usable and UnknownUefi(9). -/
theorem c2_convert_fields (d : MemoryDescriptor) :
    (convert d).start = d.phys_start ∧
    (convert d).len = d.page_count * 4096 ∧
    (convert d).kind =
      (if d.ty ∈ [CONVENTIONAL, LOADER_CODE, LOADER_DATA, BOOT_SERVICES_CODE, BOOT_SERVICES_DATA]
        then MemoryRegionKind.usable
       else MemoryRegionKind.unknownUefi d.ty) ∧
    consolidate
        [{ ty := LOADER_CODE, phys_start := 0x0, page_count := 0x8 },
         { ty := ACPI_RECLAIM, phys_start := 0x8000, page_count := 0x8 }] =
      [{ start := 0x0, len := 0x8000, kind := MemoryRegionKind.usable },
       { start := 0x8000, len := 0x8000, kind := MemoryRegionKind.unknownUefi 9 }] := by
  refine ⟨rfl, rfl, ?_, ?_⟩
  · simp only [convert, List.mem_cons, List.not_mem_nil, or_false]
  · rw [consolidate_eq_spec]
    decide

/-! ## C5 -/

/-- C5 (code bug): with a configuration table holding an ACPI 1.0 RSDP entry
and no ACPI 2.0 entry, `get_rsdp_address` returns `none` instead of the
ACPI 1.0 entry's address: the failed ACPI 2.0 `find` has already exhausted the
single iterator, so the fallback `find` searches an empty remainder.  The
second conjunct shows the table does contain an ACPI 1.0 entry. -/
theorem c5_rsdp_acpi1_fallback_returns_none :
    get_rsdp_address [{ guid := ACPI_GUID, address := 0x1234 }] = none ∧
    ([({ guid := ACPI_GUID, address := 0x1234 } : ConfigTableEntry)].any
        fun entry => entry.guid == ACPI_GUID) = true := by
  exact ⟨by decide, by decide⟩

/-! ## C6 -/

/-- C6 counterexample: at a concrete context and a machine state with
interrupts enabled, the state after `context_switch` does not have interrupts
disabled — no instruction in the trampoline's assembly touches the interrupt
flag, contradicting the claim that the context switch establishes
interrupts-disabled at kernel entry. -/
theorem c6_counterexample_interrupts_not_disabled :
    ¬((context_switch { page_table := 1, stack_top := 2, entry_point := 3, boot_info := 4 }
        { cr3 := 0, rsp := 0, rdi := 0, rip := 0, interrupts_enabled := true }).interrupts_enabled
      = false) := by
  decide

/-- C6 amended: for every Context, the context switch establishes cr3 = the
physical start address of the root page-table frame, the stack pointer =
`stack_top`, rdi = the boot-info pointer and the instruction pointer = the
kernel entry point; the interrupt flag is left unchanged (the sequence is
`mov cr3; mov rsp; jmp` with no `cli`), and the routine ends in that jump,
never returning. -/
theorem c6_register_state (context : Context) (s : MachineState) :
    (context_switch context s).cr3 = unit_start_address context.page_table ∧
    (context_switch context s).rsp = context.stack_top ∧
    (context_switch context s).rdi = context.boot_info ∧
    (context_switch context s).rip = context.entry_point ∧
    (context_switch context s).interrupts_enabled = s.interrupts_enabled :=
  ⟨rfl, rfl, rfl, rfl, rfl⟩

/-! ## C9 -/

/-- C9: a graphics mode reporting pixel format Bitmask or BltOnly makes
framebuffer discovery fail unrecoverably with the message "Bitmask and BltOnly
framebuffers are not supported"; for Rgb and Bgr the discovery returns a
framebuffer descriptor and boot continues. -/
theorem c9_unsupported_pixel_formats (g : GraphicsOutput) :
    ((g.pixel_format = GopPixelFormat.bitmask ∨ g.pixel_format = GopPixelFormat.bltOnly) →
      get_frame_buffer (some g) =
        Except.error "Bitmask and BltOnly framebuffers are not supported") ∧
    ((g.pixel_format = GopPixelFormat.rgb ∨ g.pixel_format = GopPixelFormat.bgr) →
      ∃ fb : FrameBuffer, get_frame_buffer (some g) = Except.ok (some fb)) := by
  rcases g with ⟨gw, gh, gpf, gs, gfs, gfp⟩
  constructor
  · rintro (h | h) <;> (dsimp only at h; subst h; rfl)
  · rintro (h | h) <;> (dsimp only at h; subst h; exact ⟨_, rfl⟩)

/-- C9 witness: a BltOnly mode fails with the exact message, an Rgb mode
succeeds. -/
theorem c9_unsupported_pixel_formats_witness :
    get_frame_buffer (some
        { width := 640, height := 480, pixel_format := GopPixelFormat.bltOnly, stride := 640,
          frame_buffer_size := 0x12C000, frame_buffer_ptr := 0x80000000 }) =
      Except.error "Bitmask and BltOnly framebuffers are not supported" ∧
    (∃ fb : FrameBuffer, get_frame_buffer (some
        { width := 640, height := 480, pixel_format := GopPixelFormat.rgb, stride := 640,
          frame_buffer_size := 0x12C000, frame_buffer_ptr := 0x80000000 }) =
      Except.ok (some fb)) :=
  ⟨(c9_unsupported_pixel_formats _).1 (Or.inr rfl),
   (c9_unsupported_pixel_formats _).2 (Or.inl rfl)⟩

/-! ## C4: boot-info layout -/

theorem le_roundUpTo (n a : Nat) (ha : 0 < a) : n ≤ roundUpTo n a := by
  unfold roundUpTo
  rw [Nat.mul_comm]
  have h := Nat.div_add_mod (n + a - 1) a
  have h2 : (n + a - 1) % a < a := Nat.mod_lt _ ha
  set q := (n + a - 1) / a with hq
  set r := (n + a - 1) % a with hr
  set t := a * q with ht
  omega

theorem dvd_roundUpTo (n a : Nat) : a ∣ roundUpTo n a :=
  Nat.dvd_mul_left a ((n + a - 1) / a)

/-- C4: the boot-info builder computes one layout by extending the fixed-size
header with the three arrays in the order memory regions, modules, ELF
sections, recording the byte offset of each (each offset is aligned for its
array and lies past the end of what precedes it, and the combined size ends
exactly after the ELF-sections array); the modules and ELF-sections array
lengths are the exact counts passed in, and the memory-regions capacity is
`firmware_memory_map_size / descriptor_size + 8`. -/
theorem c4_boot_info_layout (L : ApiLayouts)
    (map_size descriptor_size modules_len elf_sections_len : Nat)
    (hd : 0 < descriptor_size) (hmr : 0 < L.memoryRegion.align)
    (hmod : 0 < L.moduleEntry.align) (helf : 0 < L.elfSection.align) :
    memory_map_len map_size descriptor_size = map_size / descriptor_size + 8 ∧
    L.bootInfo.size ≤
      (allocate_boot_info_layout L (memory_map_len map_size descriptor_size)
        modules_len elf_sections_len).2.1 ∧
    L.memoryRegion.align ∣
      (allocate_boot_info_layout L (memory_map_len map_size descriptor_size)
        modules_len elf_sections_len).2.1 ∧
    (allocate_boot_info_layout L (memory_map_len map_size descriptor_size)
        modules_len elf_sections_len).2.1 +
        L.memoryRegion.size * (memory_map_len map_size descriptor_size) ≤
      (allocate_boot_info_layout L (memory_map_len map_size descriptor_size)
        modules_len elf_sections_len).2.2.1 ∧
    L.moduleEntry.align ∣
      (allocate_boot_info_layout L (memory_map_len map_size descriptor_size)
        modules_len elf_sections_len).2.2.1 ∧
    (allocate_boot_info_layout L (memory_map_len map_size descriptor_size)
        modules_len elf_sections_len).2.2.1 + L.moduleEntry.size * modules_len ≤
      (allocate_boot_info_layout L (memory_map_len map_size descriptor_size)
        modules_len elf_sections_len).2.2.2 ∧
    L.elfSection.align ∣
      (allocate_boot_info_layout L (memory_map_len map_size descriptor_size)
        modules_len elf_sections_len).2.2.2 ∧
    (allocate_boot_info_layout L (memory_map_len map_size descriptor_size)
        modules_len elf_sections_len).1.size =
      (allocate_boot_info_layout L (memory_map_len map_size descriptor_size)
        modules_len elf_sections_len).2.2.2 + L.elfSection.size * elf_sections_len := by
  refine ⟨Nat.add_mul_div_right map_size 8 hd, ?_, ?_, ?_, ?_, ?_, ?_, ?_⟩ <;>
    dsimp only [allocate_boot_info_layout, Layout.extend, Layout.arrayOf]
  · exact le_roundUpTo _ _ hmr
  · exact dvd_roundUpTo _ _
  · exact le_roundUpTo _ _ hmod
  · exact dvd_roundUpTo _ _
  · exact le_roundUpTo _ _ helf
  · exact dvd_roundUpTo _ _

/-- C4 witness: the layout theorem instantiated at concrete sizes — a
4800-byte firmware map of 48-byte descriptors gives capacity 4800/48 + 8 =
108. -/
theorem c4_boot_info_layout_witness :
    (0 : Nat) < 48 ∧
    (memory_map_len 4800 48 = 4800 / 48 + 8 ∧
      sampleApiLayouts.bootInfo.size ≤
        (allocate_boot_info_layout sampleApiLayouts (memory_map_len 4800 48) 2 3).2.1 ∧
      sampleApiLayouts.memoryRegion.align ∣
        (allocate_boot_info_layout sampleApiLayouts (memory_map_len 4800 48) 2 3).2.1 ∧
      (allocate_boot_info_layout sampleApiLayouts (memory_map_len 4800 48) 2 3).2.1 +
          sampleApiLayouts.memoryRegion.size * (memory_map_len 4800 48) ≤
        (allocate_boot_info_layout sampleApiLayouts (memory_map_len 4800 48) 2 3).2.2.1 ∧
      sampleApiLayouts.moduleEntry.align ∣
        (allocate_boot_info_layout sampleApiLayouts (memory_map_len 4800 48) 2 3).2.2.1 ∧
      (allocate_boot_info_layout sampleApiLayouts (memory_map_len 4800 48) 2 3).2.2.1 +
          sampleApiLayouts.moduleEntry.size * 2 ≤
        (allocate_boot_info_layout sampleApiLayouts (memory_map_len 4800 48) 2 3).2.2.2 ∧
      sampleApiLayouts.elfSection.align ∣
        (allocate_boot_info_layout sampleApiLayouts (memory_map_len 4800 48) 2 3).2.2.2 ∧
      (allocate_boot_info_layout sampleApiLayouts (memory_map_len 4800 48) 2 3).1.size =
        (allocate_boot_info_layout sampleApiLayouts (memory_map_len 4800 48) 2 3).2.2.2 +
          sampleApiLayouts.elfSection.size * 3) :=
  ⟨by decide,
   c4_boot_info_layout sampleApiLayouts 4800 48 2 3 (by decide) (by decide) (by decide) (by decide)⟩

/-! ## Helper lemmas: the mapping builder -/

theorem dvd_pageAlignUp (a : Nat) : 4096 ∣ pageAlignUp a :=
  Nat.dvd_mul_left 4096 ((a + 4095) / 4096)

theorem mapFreshStackPages_eq (pages : List Nat) :
    ∀ m : Memory, mapFreshStackPages pages m =
      { next_free := m.next_free, next_frame := m.next_frame + pages.length,
        page_mappings := m.page_mappings ++ freshEntries m.next_frame pages } := by
  induction pages with
  | nil => intro m; simp [mapFreshStackPages, freshEntries]
  | cons p rest ih =>
    intro m
    rw [mapFreshStackPages]
    dsimp only [Memory.allocate_frame, Memory.map]
    rw [ih]
    simp [freshEntries, Memory.mk.injEq]
    omega

theorem mapFrameBufferPages_eq (pairs : List (Nat × Nat)) :
    ∀ m : Memory, mapFrameBufferPages pairs m =
      { next_free := m.next_free, next_frame := m.next_frame,
        page_mappings :=
          m.page_mappings ++ pairs.map fun pf => (pf.1, pf.2, PRESENT ||| WRITABLE) } := by
  induction pairs with
  | nil => intro m; simp [mapFrameBufferPages]
  | cons pf rest ih =>
    intro m
    rw [mapFrameBufferPages]
    dsimp only [Memory.map]
    rw [ih]
    simp

theorem freshEntries_append (l1 l2 : List Nat) :
    ∀ nf, freshEntries nf (l1 ++ l2) =
      freshEntries nf l1 ++ freshEntries (nf + l1.length) l2 := by
  induction l1 with
  | nil => intro nf; simp [freshEntries]
  | cons p rest ih =>
    intro nf
    have harith : nf + 1 + rest.length = nf + (rest.length + 1) := by omega
    simp only [List.cons_append, freshEntries, List.length_cons, List.append_eq]
    rw [ih, harith]

theorem freshEntries_range_map (count : Nat) :
    ∀ a nf, freshEntries nf ((List.range count).map fun i => a + i) =
      (List.range count).map fun i => ((a + i, nf + i, PRESENT ||| WRITABLE) : Nat × Nat × Nat) := by
  induction count with
  | zero => intro a nf; rfl
  | succ c ih =>
    intro a nf
    rw [List.range_succ, List.map_append, List.map_append, freshEntries_append, ih]
    simp [freshEntries]

theorem mem_rangeInclusive_lower {p a b : Nat} (h : p ∈ rangeInclusive a b) : a ≤ p := by
  simp only [rangeInclusive, List.mem_map, List.mem_range] at h
  obtain ⟨i, _, hip⟩ := h
  omega

theorem stack_arith (q : Nat) :
    containing_address (4096 * q) = q ∧
    containing_address (4096 * q + STACK_SIZE - 1) = q + 17 ∧
    unit_start_address (q + 17 + 1) = 4096 * q + STACK_SIZE := by
  refine ⟨Nat.mul_div_cancel_left q (by norm_num), ?_, ?_⟩
  · show (4096 * q + STACK_SIZE - 1) / 4096 = q + 17
    have h : 4096 * q + STACK_SIZE - 1 = 73727 + 4096 * q := by
      simp [STACK_SIZE]; omega
    rw [h, Nat.add_mul_div_left _ _ (by norm_num : (0:Nat) < 4096)]
    have h17 : (73727 : Nat) / 4096 = 17 := by norm_num
    rw [h17]
    omega
  · show (q + 17 + 1) * 4096 = 4096 * q + STACK_SIZE
    simp [STACK_SIZE]; ring

theorem pageAlignUp_aligned (k : Nat) : pageAlignUp (4096 * k) = 4096 * k := by
  unfold pageAlignUp
  rw [Nat.mul_comm 4096 k, Nat.add_comm, Nat.add_mul_div_right _ _ (by norm_num : (0:Nat) < 4096)]
  norm_num

theorem pageAlignUp_STACK_SIZE : pageAlignUp STACK_SIZE = STACK_SIZE := by decide

/-- Full characterization of `set_up_mappings`: the reported stack top and
framebuffer address, and the exact list of installed mappings — seventeen
stack pages (the pages of the reserved `STACK_SIZE` region other than its
first page, the guard) each mapped to consecutive fresh frames
PRESENT | WRITABLE, then the trampoline page identity-mapped PRESENT, then the
framebuffer pages (when present) mapped PRESENT | WRITABLE to the physical
framebuffer frames. -/
theorem set_up_mappings_spec (m : Memory) (fb : Option FrameBuffer) (cs : Nat) :
    (set_up_mappings m fb cs).1.stack_top = pageAlignUp m.next_free + STACK_SIZE ∧
    (set_up_mappings m fb cs).1.frame_buffer =
      fb.map (fun _ => pageAlignUp m.next_free + STACK_SIZE) ∧
    (set_up_mappings m fb cs).2.page_mappings =
      m.page_mappings
        ++ freshEntries m.next_frame
            (rangeInclusive (containing_address (pageAlignUp m.next_free) + 1)
              (containing_address (pageAlignUp m.next_free) + 17))
        ++ [(containing_address cs, containing_address cs, PRESENT)]
        ++ (match fb with
            | none => []
            | some fbv =>
              ((rangeInclusive (containing_address (pageAlignUp m.next_free + STACK_SIZE))
                  (containing_address
                    (pageAlignUp m.next_free + STACK_SIZE + fbv.info.size - 1))).zip
                (rangeInclusive (containing_address fbv.start)
                  (containing_address (fbv.start + fbv.info.size - 1)))).map
                fun pf => ((pf.1, pf.2, PRESENT ||| WRITABLE) : Nat × Nat × Nat)) := by
  obtain ⟨q, hq⟩ : (4096 : Nat) ∣ pageAlignUp m.next_free := dvd_pageAlignUp m.next_free
  obtain ⟨h1, h2, h3⟩ := stack_arith q
  cases fb with
  | none =>
    dsimp only [set_up_mappings, Memory.get_free_address, set_up_arch_specific_mappings]
    rw [hq, h1, h2, mapFreshStackPages_eq]
    dsimp only [Memory.map]
    refine ⟨h3, rfl, ?_⟩
    simp
  | some fbv =>
    dsimp only [set_up_mappings, Memory.get_free_address, set_up_arch_specific_mappings]
    rw [hq, h1, h2, mapFreshStackPages_eq]
    dsimp only [Memory.map]
    rw [pageAlignUp_STACK_SIZE]
    have hq2 : pageAlignUp (4096 * q + STACK_SIZE) = 4096 * q + STACK_SIZE := by
      have : 4096 * q + STACK_SIZE = 4096 * (q + 18) := by simp [STACK_SIZE]; ring
      rw [this, pageAlignUp_aligned]
    rw [hq2, mapFrameBufferPages_eq]
    refine ⟨h3, rfl, ?_⟩
    simp

/-! ## C3 -/

/-- C3 counterexample: at a concrete memory state the mapping builder maps 17
stack pages, not `STACK_SIZE / 4096 = 18`: the reserved virtual region is
exactly `STACK_SIZE` bytes (stack_top = region start 0 + STACK_SIZE) and the
guard page comes out of that region rather than being added ahead of it, so
the claim's "STACK_SIZE bytes plus one leading guard page, every page of the
region except the guard mapped" (18 mapped pages) fails. -/
theorem c3_counterexample :
    (((set_up_mappings { next_free := 0, next_frame := 0, page_mappings := [] } none
          0x300000).2.page_mappings.filter fun e => e.2.2 == PRESENT ||| WRITABLE).length = 17) ∧
    ¬((((set_up_mappings { next_free := 0, next_frame := 0, page_mappings := [] } none
          0x300000).2.page_mappings.filter fun e => e.2.2 == PRESENT ||| WRITABLE).length) =
        STACK_SIZE / 4096) ∧
    (set_up_mappings { next_free := 0, next_frame := 0, page_mappings := [] } none
        0x300000).1.stack_top = STACK_SIZE := by
  decide

/-- C3 amended: the mapping builder reserves a virtual region of exactly
`STACK_SIZE = 18 * 4096` bytes whose first page is the guard page; it maps
each of the remaining `STACK_SIZE / 4096 - 1 = 17` pages of the region to a
distinct freshly allocated frame with PRESENT | WRITABLE, leaves exactly one
unmapped page (the guard, never mapped by any mapping-builder step) immediately
below the first mapped page, and reports `stack_top` equal to the first
address past the last mapped page, i.e. region start + STACK_SIZE. -/
theorem c3_stack_mapping (m : Memory) (fb : Option FrameBuffer) (cs : Nat)
    (hcs : containing_address cs ≠ containing_address (pageAlignUp m.next_free))
    (hold : ∀ e ∈ m.page_mappings, e.1 ≠ containing_address (pageAlignUp m.next_free)) :
    (set_up_mappings m fb cs).1.stack_top = pageAlignUp m.next_free + STACK_SIZE ∧
    (∀ i < STACK_SIZE / 4096 - 1,
      ((containing_address (pageAlignUp m.next_free) + 1 + i, m.next_frame + i,
        PRESENT ||| WRITABLE) : Nat × Nat × Nat) ∈ (set_up_mappings m fb cs).2.page_mappings) ∧
    (∀ e ∈ (set_up_mappings m fb cs).2.page_mappings,
      e.1 ≠ containing_address (pageAlignUp m.next_free)) := by
  obtain ⟨hTop, hFb, hPm⟩ := set_up_mappings_spec m fb cs
  obtain ⟨q, hq⟩ : (4096 : Nat) ∣ pageAlignUp m.next_free := dvd_pageAlignUp m.next_free
  have hs : containing_address (pageAlignUp m.next_free) = q := by
    rw [hq]; exact (stack_arith q).1
  have hrange : rangeInclusive (q + 1) (q + 17) = (List.range 17).map fun i => q + 1 + i := by
    unfold rangeInclusive
    rw [show q + 17 + 1 - (q + 1) = 17 by omega]
  refine ⟨hTop, ?_, ?_⟩
  · intro i hi
    have hi17 : i < 17 := by
      have : STACK_SIZE / 4096 - 1 = 17 := by decide
      omega
    rw [hPm, hs, hrange, freshEntries_range_map]
    simp only [List.mem_append]
    left; left; right
    simp only [List.mem_map, List.mem_range]
    exact ⟨i, hi17, rfl⟩
  · rw [hs] at hold
    intro e he
    rw [hs]
    rw [hPm, hs, hrange, freshEntries_range_map] at he
    simp only [List.mem_append] at he
    rcases he with ((he | he) | he) | he
    · exact hold e he
    · simp only [List.mem_map, List.mem_range] at he
      obtain ⟨i, hi, rfl⟩ := he
      simp only []
      omega
    · simp only [List.mem_singleton] at he
      subst he
      rw [hs] at hcs
      simpa using hcs
    · cases fb with
      | none => simp at he
      | some fbv =>
        simp only [List.mem_map] at he
        obtain ⟨pf, hpf, rfl⟩ := he
        obtain ⟨p1, p2⟩ := pf
        have h1 := (List.of_mem_zip hpf).1
        have hge := mem_rangeInclusive_lower h1
        have h18 : containing_address (pageAlignUp m.next_free + STACK_SIZE) = q + 18 := by
          rw [hq, show 4096 * q + STACK_SIZE = 4096 * (q + 18) by simp [STACK_SIZE]; ring]
          exact Nat.mul_div_cancel_left _ (by norm_num)
        rw [h18] at hge
        simp only []
        omega

/-- C3 witness: the amended stack-mapping theorem instantiated at the empty
memory state with the trampoline away from the stack region. -/
theorem c3_stack_mapping_witness :
    (containing_address 0x300000 ≠ containing_address (pageAlignUp 0) ∧
      ∀ e ∈ ([] : List (Nat × Nat × Nat)), e.1 ≠ containing_address (pageAlignUp 0)) ∧
    ((set_up_mappings { next_free := 0, next_frame := 0, page_mappings := [] } none
        0x300000).1.stack_top = pageAlignUp 0 + STACK_SIZE ∧
      (∀ i < STACK_SIZE / 4096 - 1,
        ((containing_address (pageAlignUp 0) + 1 + i, 0 + i,
          PRESENT ||| WRITABLE) : Nat × Nat × Nat) ∈
          (set_up_mappings { next_free := 0, next_frame := 0, page_mappings := [] } none
            0x300000).2.page_mappings) ∧
      (∀ e ∈ (set_up_mappings { next_free := 0, next_frame := 0, page_mappings := [] } none
          0x300000).2.page_mappings,
        e.1 ≠ containing_address (pageAlignUp 0))) :=
  ⟨⟨by decide, by simp⟩,
   c3_stack_mapping { next_free := 0, next_frame := 0, page_mappings := [] } none 0x300000
     (by decide) (by simp)⟩

/-! ## C10 -/

/-- C10: the unwrap of the firmware framebuffer descriptor in the boot-info
assembly never panics: `mappings.frame_buffer` is Some exactly when the
firmware framebuffer was present, the assembled boot-info field is Some
exactly in that case, and then its start is the freshly chosen kernel virtual
address for the framebuffer while its info is the firmware-reported
`FrameBufferInfo`. -/
theorem c10_frame_buffer_unwrap_safe (m : Memory) (fb : Option FrameBuffer) (cs : Nat) :
    ((set_up_mappings m fb cs).1.frame_buffer.isSome = fb.isSome) ∧
    (∃ r : Option FrameBuffer,
      assembleFrameBufferField fb (set_up_mappings m fb cs).1 = Except.ok r ∧
      r.isSome = fb.isSome) ∧
    (∀ fbv : FrameBuffer, fb = some fbv →
      assembleFrameBufferField fb (set_up_mappings m fb cs).1 =
        Except.ok (some { start := pageAlignUp m.next_free + STACK_SIZE, info := fbv.info })) := by
  obtain ⟨-, hFb, -⟩ := set_up_mappings_spec m fb cs
  cases fb with
  | none =>
    refine ⟨by rw [hFb]; rfl, ⟨none, by simp [assembleFrameBufferField, hFb], rfl⟩, ?_⟩
    intro fbv h
    cases h
  | some fbv =>
    refine ⟨by rw [hFb]; rfl,
      ⟨some { start := pageAlignUp m.next_free + STACK_SIZE, info := fbv.info },
        by simp [assembleFrameBufferField, hFb], rfl⟩, ?_⟩
    intro fbv2 h
    injection h with h
    subst h
    simp [assembleFrameBufferField, hFb]

/-- C10 witness: with a present firmware framebuffer, the assembled field is
`ok` and carries the fresh virtual address paired with the firmware info. -/
theorem c10_frame_buffer_unwrap_safe_witness :
    assembleFrameBufferField
        (some { start := 0x80000000,
                info := { size := 0x100, width := 8, height := 8,
                          pixel_format := PixelFormat.rgb, bytes_per_pixel := 4, stride := 8 } })
        (set_up_mappings { next_free := 0, next_frame := 0, page_mappings := [] }
          (some { start := 0x80000000,
                  info := { size := 0x100, width := 8, height := 8,
                            pixel_format := PixelFormat.rgb, bytes_per_pixel := 4,
                            stride := 8 } }) 0x300000).1 =
      Except.ok (some { start := pageAlignUp 0 + STACK_SIZE,
                        info := { size := 0x100, width := 8, height := 8,
                                  pixel_format := PixelFormat.rgb, bytes_per_pixel := 4,
                                  stride := 8 } }) :=
  (c10_frame_buffer_unwrap_safe _ _ _).2.2 _ rfl

/-! ## Helper lemmas: invariants of the consolidation loop -/

theorem specConsolidateLoop_head (l : List MemoryDescriptor) :
    ∀ a : MemoryRegion, ∃ r0 rest, specConsolidateLoop a l = r0 :: rest ∧
      r0.kind = a.kind ∧ r0.start = a.start := by
  induction l with
  | nil => intro a; exact ⟨a, [], rfl, rfl, rfl⟩
  | cons d tl ih =>
    intro a
    by_cases h : a.kind = (convert d).kind ∧ a.start + a.len = (convert d).start
    · simp only [specConsolidateLoop, if_pos h]
      exact ih _
    · simp only [specConsolidateLoop, if_neg h]
      exact ⟨a, _, rfl, rfl, rfl⟩

theorem specConsolidateLoop_contig (l : List MemoryDescriptor) :
    ∀ a : MemoryRegion, ContigFrom (regionEnd a) l →
      RegionsContigFrom a.start (specConsolidateLoop a l) := by
  induction l with
  | nil => intro a _; exact ⟨rfl, trivial⟩
  | cons d tl ih =>
    intro a hc
    obtain ⟨hstart, hrest⟩ := hc
    have hstart' : d.phys_start = a.start + a.len := hstart
    by_cases h : a.kind = (convert d).kind ∧ a.start + a.len = (convert d).start
    · simp only [specConsolidateLoop, if_pos h]
      have hext : ContigFrom (regionEnd { a with len := a.len + (convert d).len }) tl := by
        have he : regionEnd { a with len := a.len + (convert d).len } = descEnd d := by
          show a.start + (a.len + (convert d).len) = d.phys_start + descLen d
          have h1 : (convert d).len = descLen d := rfl
          omega
        rw [he]
        exact hrest
      exact ih _ hext
    · simp only [specConsolidateLoop, if_neg h]
      refine ⟨rfl, ?_⟩
      have hres := ih (convert d) hrest
      rw [show (convert d).start = d.phys_start from rfl, hstart'] at hres
      exact hres

theorem specConsolidateLoop_sum (l : List MemoryDescriptor) :
    ∀ a : MemoryRegion,
      ((specConsolidateLoop a l).map fun r => r.len).sum = a.len + (l.map descLen).sum := by
  induction l with
  | nil => intro a; simp [specConsolidateLoop]
  | cons d tl ih =>
    intro a
    by_cases h : a.kind = (convert d).kind ∧ a.start + a.len = (convert d).start
    · simp only [specConsolidateLoop, if_pos h]
      rw [ih]
      have h1 : (convert d).len = descLen d := rfl
      dsimp only
      simp only [List.map_cons, List.sum_cons]
      omega
    · simp only [specConsolidateLoop, if_neg h, List.map_cons, List.sum_cons]
      rw [ih]
      have h1 : (convert d).len = descLen d := rfl
      omega

theorem specConsolidateLoop_pos (l : List MemoryDescriptor) :
    ∀ a : MemoryRegion, (∀ x ∈ l, 0 < x.page_count) → 0 < a.len →
      ∀ r ∈ specConsolidateLoop a l, 0 < r.len := by
  induction l with
  | nil =>
    intro a _ ha r hr
    simp only [specConsolidateLoop, List.mem_singleton] at hr
    subst hr
    exact ha
  | cons d tl ih =>
    intro a hl ha r hr
    by_cases h : a.kind = (convert d).kind ∧ a.start + a.len = (convert d).start
    · simp only [specConsolidateLoop, if_pos h] at hr
      refine ih _ (fun x hx => hl x (List.mem_cons_of_mem _ hx)) ?_ r hr
      show 0 < a.len + (convert d).len
      omega
    · simp only [specConsolidateLoop, if_neg h, List.mem_cons] at hr
      rcases hr with rfl | hr
      · exact ha
      · refine ih (convert d) (fun x hx => hl x (List.mem_cons_of_mem _ hx)) ?_ r hr
        have hd := hl d (List.mem_cons_self d tl)
        show 0 < d.page_count * 4096
        omega

theorem specConsolidateLoop_kinds (l : List MemoryDescriptor) :
    ∀ a : MemoryRegion, ContigFrom (regionEnd a) l →
      List.Chain' (fun r1 r2 => r1.kind ≠ r2.kind) (specConsolidateLoop a l) := by
  induction l with
  | nil => intro a _; simp [specConsolidateLoop]
  | cons d tl ih =>
    intro a hc
    obtain ⟨hstart, hrest⟩ := hc
    have hstart' : d.phys_start = a.start + a.len := hstart
    by_cases h : a.kind = (convert d).kind ∧ a.start + a.len = (convert d).start
    · simp only [specConsolidateLoop, if_pos h]
      have hext : ContigFrom (regionEnd { a with len := a.len + (convert d).len }) tl := by
        have he : regionEnd { a with len := a.len + (convert d).len } = descEnd d := by
          show a.start + (a.len + (convert d).len) = d.phys_start + descLen d
          have h1 : (convert d).len = descLen d := rfl
          omega
        rw [he]
        exact hrest
      exact ih _ hext
    · simp only [specConsolidateLoop, if_neg h]
      obtain ⟨r0, rest, heq, hk, hs⟩ := specConsolidateLoop_head tl (convert d)
      rw [heq, List.chain'_cons]
      constructor
      · intro hcontra
        exact h ⟨hcontra.trans hk, hstart'.symm⟩
      · have := ih (convert d) hrest
        rw [heq] at this
        exact this

theorem specConsolidateLoop_separated (l : List MemoryDescriptor) :
    ∀ a : MemoryRegion, List.Chain' NotMergeable (specConsolidateLoop a l) := by
  induction l with
  | nil => intro a; simp [specConsolidateLoop]
  | cons d tl ih =>
    intro a
    by_cases h : a.kind = (convert d).kind ∧ a.start + a.len = (convert d).start
    · simp only [specConsolidateLoop, if_pos h]
      exact ih _
    · simp only [specConsolidateLoop, if_neg h]
      obtain ⟨r0, rest, heq, hk, hs⟩ := specConsolidateLoop_head tl (convert d)
      rw [heq, List.chain'_cons]
      constructor
      · intro hcontra
        exact h ⟨hcontra.1.trans hk, hcontra.2.trans hs⟩
      · have := ih (convert d)
        rw [heq] at this
        exact this

theorem kindCanonical_convert (d : MemoryDescriptor) : KindCanonical (convert d).kind := by
  by_cases h : d.ty = CONVENTIONAL ∨ d.ty = LOADER_CODE ∨ d.ty = LOADER_DATA ∨
      d.ty = BOOT_SERVICES_CODE ∨ d.ty = BOOT_SERVICES_DATA
  · show KindCanonical (convert d).kind
    rw [show (convert d).kind = MemoryRegionKind.usable by simp [convert, if_pos h]]
    trivial
  · rw [show (convert d).kind = MemoryRegionKind.unknownUefi d.ty by simp [convert, if_neg h]]
    exact h

theorem dvd_convert_len (d : MemoryDescriptor) : 4096 ∣ (convert d).len :=
  Nat.dvd_mul_left 4096 d.page_count

theorem canonicalRegion_of (r : MemoryRegion) (hk : KindCanonical r.kind)
    (hd : 4096 ∣ r.len) : CanonicalRegion r := by
  obtain ⟨s, len, k⟩ := r
  cases k with
  | usable =>
    show convert
        { ty := kindToTag MemoryRegionKind.usable, phys_start := s,
          page_count := len / 4096 } = _
    simp [convert, kindToTag, CONVENTIONAL, Nat.div_mul_cancel hd]
  | unknownUefi tag =>
    have hk' : ¬(tag = CONVENTIONAL ∨ tag = LOADER_CODE ∨ tag = LOADER_DATA ∨
        tag = BOOT_SERVICES_CODE ∨ tag = BOOT_SERVICES_DATA) := hk
    show convert
        { ty := kindToTag (MemoryRegionKind.unknownUefi tag), phys_start := s,
          page_count := len / 4096 } = _
    simp [convert, kindToTag, Nat.div_mul_cancel hd, hk']
  | bootloaderReserved => exact absurd hk (by simp [KindCanonical])
  | kernelReserved => exact absurd hk (by simp [KindCanonical])

theorem specConsolidateLoop_canonical (l : List MemoryDescriptor) :
    ∀ a : MemoryRegion, KindCanonical a.kind → 4096 ∣ a.len →
      ∀ r ∈ specConsolidateLoop a l, KindCanonical r.kind ∧ 4096 ∣ r.len := by
  induction l with
  | nil =>
    intro a hk hd r hr
    simp only [specConsolidateLoop, List.mem_singleton] at hr
    subst hr
    exact ⟨hk, hd⟩
  | cons d tl ih =>
    intro a hk hd r hr
    by_cases h : a.kind = (convert d).kind ∧ a.start + a.len = (convert d).start
    · simp only [specConsolidateLoop, if_pos h] at hr
      exact ih { a with len := a.len + (convert d).len } hk
        (Nat.dvd_add hd (dvd_convert_len d)) r hr
    · simp only [specConsolidateLoop, if_neg h, List.mem_cons] at hr
      rcases hr with rfl | hr
      · exact ⟨hk, hd⟩
      · exact ih (convert d) (kindCanonical_convert d) (dvd_convert_len d) r hr

theorem specConsolidateLoop_replay (rest : List MemoryRegion) :
    ∀ r : MemoryRegion, List.Chain' NotMergeable (r :: rest) →
      (∀ x ∈ rest, CanonicalRegion x) →
      specConsolidateLoop r (rest.map rereadDescriptor) = r :: rest := by
  induction rest with
  | nil => intro r _ _; rfl
  | cons r2 rest2 ih =>
    intro r hchain hcan
    have hc2 : convert (rereadDescriptor r2) = r2 := hcan r2 (List.mem_cons_self _ _)
    rw [List.chain'_cons] at hchain
    obtain ⟨hnm, hchain2⟩ := hchain
    have hnm' : ¬(r.kind = (convert (rereadDescriptor r2)).kind ∧
        r.start + r.len = (convert (rereadDescriptor r2)).start) := by
      rw [hc2]
      exact hnm
    simp only [List.map_cons, specConsolidateLoop, if_neg hnm']
    rw [hc2]
    exact congrArg (r :: ·) (ih r2 hchain2 fun x hx => hcan x (List.mem_cons_of_mem _ hx))

theorem regionsContigFrom_lower (l : List MemoryRegion) :
    ∀ e, RegionsContigFrom e l → ∀ r ∈ l, e ≤ r.start := by
  induction l with
  | nil => intro e _ r hr; cases hr
  | cons r0 tl ih =>
    intro e hc r hr
    obtain ⟨h0, hrest⟩ := hc
    rcases List.mem_cons.mp hr with rfl | hr
    · omega
    · have hlow := ih (regionEnd r0) hrest r hr
      have hre : regionEnd r0 = r0.start + r0.len := rfl
      omega

theorem regionsContigFrom_sorted (l : List MemoryRegion) :
    ∀ e, RegionsContigFrom e l →
      List.Sorted (fun r1 r2 => r1.start ≤ r2.start) l := by
  induction l with
  | nil => intro e _; exact List.sorted_nil
  | cons r tl ih =>
    intro e hc
    obtain ⟨hre, hrest⟩ := hc
    rw [List.sorted_cons]
    refine ⟨?_, ih _ hrest⟩
    intro b hb
    have hlow := regionsContigFrom_lower tl (regionEnd r) hrest b hb
    have hre2 : regionEnd r = r.start + r.len := rfl
    omega

/-! ## C7 -/

/-- C7 counterexample: for the firmware descriptor sequence consisting of two
CONVENTIONAL descriptors in the order 0x1000 (1 page) then 0x0 (1 page), the
consolidator's output sorted by start is two abutting Usable regions — two
adjacent regions of the same kind, refuting the unconditional invariant (the
consolidator only merges descriptors adjacent in firmware order). -/
theorem c7_counterexample :
    sortByStart (consolidate
        [{ ty := CONVENTIONAL, phys_start := 4096, page_count := 1 },
         { ty := CONVENTIONAL, phys_start := 0, page_count := 1 }]) =
      [{ start := 0, len := 4096, kind := MemoryRegionKind.usable },
       { start := 4096, len := 4096, kind := MemoryRegionKind.usable }] ∧
    ¬ List.Chain' (fun r1 r2 => r1.kind ≠ r2.kind)
        (sortByStart (consolidate
          [{ ty := CONVENTIONAL, phys_start := 4096, page_count := 1 },
           { ty := CONVENTIONAL, phys_start := 0, page_count := 1 }])) := by
  simp only [consolidate_eq_spec]
  have h1 : sortByStart (specConsolidate
      [{ ty := CONVENTIONAL, phys_start := 4096, page_count := 1 },
       { ty := CONVENTIONAL, phys_start := 0, page_count := 1 }]) =
      [{ start := 0, len := 4096, kind := MemoryRegionKind.usable },
       { start := 4096, len := 4096, kind := MemoryRegionKind.usable }] := by decide
  refine ⟨h1, ?_⟩
  rw [h1]
  simp [List.chain'_cons, List.chain'_singleton]

/-- C7 amended: for every firmware descriptor sequence that is
address-contiguous in firmware order (each descriptor starts where the
previous one ends — the shape of a firmware memory map) and has positive page
counts, the consolidator's output is nonempty, chains gaplessly from the first
descriptor's start with total length preserved (so it covers
`[min_start, max_end)` without gaps), has positive lengths, has no two
adjacent regions of the same kind, and is already sorted by start (sorting it
is the identity). -/
theorem c7_coverage (d : MemoryDescriptor) (tl : List MemoryDescriptor)
    (hpos : ∀ x ∈ d :: tl, 0 < x.page_count)
    (hcontig : ContigFrom d.phys_start (d :: tl)) :
    consolidate (d :: tl) ≠ [] ∧
    RegionsContigFrom d.phys_start (consolidate (d :: tl)) ∧
    ((consolidate (d :: tl)).map fun r => r.len).sum = ((d :: tl).map descLen).sum ∧
    (∀ r ∈ consolidate (d :: tl), 0 < r.len) ∧
    List.Chain' (fun r1 r2 => r1.kind ≠ r2.kind) (consolidate (d :: tl)) ∧
    sortByStart (consolidate (d :: tl)) = consolidate (d :: tl) := by
  obtain ⟨-, hrest⟩ := hcontig
  have hrest' : ContigFrom (regionEnd (convert d)) tl := hrest
  have heq : consolidate (d :: tl) = specConsolidateLoop (convert d) tl := by
    rw [consolidate_eq_spec]; rfl
  rw [heq]
  have hcontig2 := specConsolidateLoop_contig tl (convert d) hrest'
  refine ⟨?_, hcontig2, ?_, ?_, specConsolidateLoop_kinds tl (convert d) hrest', ?_⟩
  · obtain ⟨r0, rest, heq2, -, -⟩ := specConsolidateLoop_head tl (convert d)
    rw [heq2]
    simp
  · rw [specConsolidateLoop_sum]
    have h1 : (convert d).len = descLen d := rfl
    simp only [List.map_cons, List.sum_cons]
    omega
  · intro r hr
    refine specConsolidateLoop_pos tl (convert d)
      (fun x hx => hpos x (List.mem_cons_of_mem _ hx)) ?_ r hr
    have hd0 := hpos d (List.mem_cons_self d tl)
    show 0 < d.page_count * 4096
    omega
  · exact List.Sorted.insertionSort_eq (regionsContigFrom_sorted _ _ hcontig2)

/-- C7 witness: the coverage theorem on the contiguous two-descriptor map
CONVENTIONAL at 0 (1 page) then ACPI_RECLAIM at 0x1000 (2 pages). -/
theorem c7_coverage_witness :
    ((∀ x ∈ [({ ty := CONVENTIONAL, phys_start := 0, page_count := 1 } : MemoryDescriptor),
        { ty := ACPI_RECLAIM, phys_start := 4096, page_count := 2 }], 0 < x.page_count) ∧
      ContigFrom (0 : Nat)
        [({ ty := CONVENTIONAL, phys_start := 0, page_count := 1 } : MemoryDescriptor),
         { ty := ACPI_RECLAIM, phys_start := 4096, page_count := 2 }]) ∧
    (consolidate
        [({ ty := CONVENTIONAL, phys_start := 0, page_count := 1 } : MemoryDescriptor),
         { ty := ACPI_RECLAIM, phys_start := 4096, page_count := 2 }] ≠ [] ∧
      RegionsContigFrom (0 : Nat) (consolidate
        [({ ty := CONVENTIONAL, phys_start := 0, page_count := 1 } : MemoryDescriptor),
         { ty := ACPI_RECLAIM, phys_start := 4096, page_count := 2 }]) ∧
      ((consolidate
        [({ ty := CONVENTIONAL, phys_start := 0, page_count := 1 } : MemoryDescriptor),
         { ty := ACPI_RECLAIM, phys_start := 4096, page_count := 2 }]).map fun r => r.len).sum =
        (([({ ty := CONVENTIONAL, phys_start := 0, page_count := 1 } : MemoryDescriptor),
           { ty := ACPI_RECLAIM, phys_start := 4096, page_count := 2 }]).map descLen).sum ∧
      (∀ r ∈ consolidate
        [({ ty := CONVENTIONAL, phys_start := 0, page_count := 1 } : MemoryDescriptor),
         { ty := ACPI_RECLAIM, phys_start := 4096, page_count := 2 }], 0 < r.len) ∧
      List.Chain' (fun r1 r2 => r1.kind ≠ r2.kind) (consolidate
        [({ ty := CONVENTIONAL, phys_start := 0, page_count := 1 } : MemoryDescriptor),
         { ty := ACPI_RECLAIM, phys_start := 4096, page_count := 2 }]) ∧
      sortByStart (consolidate
        [({ ty := CONVENTIONAL, phys_start := 0, page_count := 1 } : MemoryDescriptor),
         { ty := ACPI_RECLAIM, phys_start := 4096, page_count := 2 }]) = consolidate
        [({ ty := CONVENTIONAL, phys_start := 0, page_count := 1 } : MemoryDescriptor),
         { ty := ACPI_RECLAIM, phys_start := 4096, page_count := 2 }]) :=
  ⟨⟨by decide, ⟨rfl, by norm_num [descEnd, descLen], trivial⟩⟩,
   c7_coverage { ty := CONVENTIONAL, phys_start := 0, page_count := 1 }
     [{ ty := ACPI_RECLAIM, phys_start := 4096, page_count := 2 }]
     (by decide) ⟨rfl, by norm_num [descEnd, descLen], trivial⟩⟩

/-! ## C8 -/

/-- C8: the memory-descriptor consolidation is idempotent: for every input
descriptor sequence, re-reading the output regions as descriptors of the same
start, length and kind and consolidating again produces the same sequence of
regions. -/
theorem c8_consolidate_idempotent (l : List MemoryDescriptor) :
    consolidate ((consolidate l).map rereadDescriptor) = consolidate l := by
  have hx : consolidate l = specConsolidate l := consolidate_eq_spec l
  rw [hx, consolidate_eq_spec]
  cases l with
  | nil => simp [specConsolidate]
  | cons d tl =>
    show specConsolidate ((specConsolidateLoop (convert d) tl).map rereadDescriptor) =
      specConsolidateLoop (convert d) tl
    obtain ⟨r0, rest, heq, -, -⟩ := specConsolidateLoop_head tl (convert d)
    have hcanAll : ∀ r ∈ specConsolidateLoop (convert d) tl, CanonicalRegion r := by
      intro r hr
      obtain ⟨h1, h2⟩ := specConsolidateLoop_canonical tl (convert d)
        (kindCanonical_convert d) (dvd_convert_len d) r hr
      exact canonicalRegion_of r h1 h2
    have hchain := specConsolidateLoop_separated tl (convert d)
    rw [heq] at hchain ⊢
    have hc0 : convert (rereadDescriptor r0) = r0 :=
      hcanAll r0 (by rw [heq]; exact List.mem_cons_self _ _)
    have hcrest : ∀ x ∈ rest, CanonicalRegion x := fun x hx2 =>
      hcanAll x (by rw [heq]; exact List.mem_cons_of_mem _ hx2)
    show specConsolidateLoop (convert (rereadDescriptor r0)) (rest.map rereadDescriptor) =
      r0 :: rest
    rw [hc0]
    exact specConsolidateLoop_replay rest r0 hchain hcrest

end UefiBootloader
